import Mathlib

/-!
Verification of the graphfileystem repository: a content-addressed in-memory
file store backed by a compressed byte trie with reference-counted nodes.

This file gives a shallow embedding of the trie engine (the impl type of the
source: Insert, Copy, Delete with cleanup and healing, Get) and settles the
frozen claims C1..C10 against it.

Modelling conventions, mirroring the source one construct at a time:
- a Go byte is a Nat (only equality and map-keying are used, never overflow);
- a Go map from byte to node pointer is an association list with unique keys;
- the node pointer graph is a tree in the source (children are created fresh
  and moved wholesale on a split, never shared between two parents), so nodes
  form an inductive type and pointer mutation through the current pointer is
  functional update along the list of child keys walked from the root;
- the lookup map from name to lookerup record is a function from String; the
  path inside a lookerup is modelled by value wherever no two live records
  share one path pointer, which holds on every trace the claims evaluate
  except the aliased path correction of C4: for that, a slice-level model of
  the path heap (backing arrays, slice variables, the capacity re-use of the
  Go append) is defined further below and exhibits the in-place corruption
  the source's insertPath inflicts on records aliased by Copy;
- a Go nil-pointer dereference or out-of-range reslice is a crash, modelled
  by Option (none = the operation panics);
- the background cleanup goroutine spawned by Delete is modelled as having
  run to completion, which is the strict-mode behaviour the claims quantify
  over (the claims say: with its cleanup completed).
-/

namespace GFS

/-- A trie node, from the node struct of the source: an owned byte run, a
reference count (a Go int, so an integer), and a byte-keyed child map. -/
inductive Node where
  | mk (value : List Nat) (refs : Int) (children : List (Nat × Node))

def Node.value : Node → List Nat
  | .mk v _ _ => v

def Node.refs : Node → Int
  | .mk _ r _ => r

def Node.children : Node → List (Nat × Node)
  | .mk _ _ cs => cs

/-- Child-map lookup: the read m[b] of the Go child map. -/
def findC : List (Nat × Node) → Nat → Option Node
  | [], _ => none
  | (k, c) :: rest, b => if k = b then some c else findC rest b

/-- Child-map write m[b] = x: replaces the binding if the key is present,
otherwise appends it. -/
def setC : List (Nat × Node) → Nat → Node → List (Nat × Node)
  | [], b, x => [(b, x)]
  | (k, c) :: rest, b, x => if k = b then (k, x) :: rest else (k, c) :: setC rest b x

/-- Child-map delete(m, b). -/
def delC : List (Nat × Node) → Nat → List (Nat × Node)
  | [], _ => []
  | (k, c) :: rest, b => if k = b then rest else (k, c) :: delC rest b

/-- The node reached from n by following a list of child keys: the meaning of
a node pointer in the tree-shaped pointer graph.  none when a key is missing
(a nil pointer in the source). -/
def getAt : Node → List Nat → Option Node
  | n, [] => some n
  | n, b :: rest =>
    match findC n.children b with
    | some c => getAt c rest
    | none => none

/-- Functional update of the node at a key list: the meaning of a mutation
through a node pointer.  Leaves the tree unchanged when the key list dangles
(never reached by the operations as used). -/
def modifyAt : Node → List Nat → (Node → Node) → Node
  | n, [], f => f n
  | n, b :: rest, f =>
    match findC n.children b with
    | some c => ⟨n.value, n.refs, setC n.children b (modifyAt c rest f)⟩
    | none => n

/-- A path-index record, from the lookerup struct of the source: the branch
keys from the root to the file's terminal node, and the file's byte length. -/
structure Lookerup where
  path : List Nat
  length : Nat
  deriving DecidableEq, Repr

/-- The store, from the impl struct of the source: the root node and the
name-to-record index (the lookup map). -/
structure Store where
  root : Node
  lookup : String → Option Lookerup

/-- A store as built by New with no input: an empty-valued root with zero
refs and no children, and an empty index. -/
def emptyStore : Store :=
  ⟨⟨[], 0, []⟩, fun _ => none⟩

/-- The bounds-checked prefix test of partialFind in the source: frontOfB p q
is true iff every position of p exists in q and matches, i.e. p is a leading
segment of q. -/
def frontOfB : List Nat → List Nat → Bool
  | [], _ => true
  | _ :: _, [] => false
  | a :: as, b :: bs => a == b && frontOfB as bs

/-- insertPath of the source viewed by value: a fresh path equal to p with
v inserted at index at_, later keys shifted right by one.  This is the
result a caller observes whenever the corrected slice's backing array is
not shared with another live record; the source's append re-uses spare
capacity and its shifting copy then mutates a shared backing in place,
which insertPathGo below models at slice level (the subject of C4). -/
def insertPath (p : List Nat) (at_ : Nat) (v : Nat) : List Nat :=
  p.take at_ ++ v :: p.drop at_

/-- The path-correction loop of splitNode viewed by value: partialFind(path)
selects every registered file whose recorded path has the in-progress path
as a leading segment, and each such record has expected inserted into its
path at index (length of the in-progress path).  Faithful whenever no two
selected records share one path pointer: after Copy two records do, and the
source's loop then corrupts both through the shared backing array, which
correctLoopGo below models at slice level (the subject of C4).  Every trace
the other claims evaluate corrects at most unshared records, where this
by-value form and the slice-level form agree. -/
def correctPaths (lk : String → Option Lookerup) (path : List Nat) (expected : Nat) :
    String → Option Lookerup :=
  fun nm =>
    (lk nm).map fun r =>
      if frontOfB path r.path then ⟨insertPath r.path path.length expected, r.length⟩ else r

/-- The node surgery of splitNode in the source: cut the value at at_, keep
the kept head run, and push the displaced tail run into a single new child
keyed by the first displaced byte, which inherits the whole previous child
map and the pre-split refs. -/
def splitNodeF (at_ : Nat) (n : Node) : Node :=
  ⟨n.value.take at_, n.refs,
    [(n.value.getD at_ 0, ⟨n.value.drop at_, n.refs, n.children⟩)]⟩

/-- The per-insert loop state of Insert: the evolving tree and index plus the
current pointer (identified by the walked key list), the cursor into the
current node's value, and the running byte count. -/
structure InsSt where
  root : Node
  lookup : String → Option Lookerup
  path : List Nat
  cursor : Nat
  length : Nat

/-- One iteration of the byte loop of Insert for byte b, exactly the four
cases of the source: append to an unfinalized node (refs 0), match inside the
value, descend into an existing child, or branch (splitting first when the
divergence is mid-value). -/
def insStep (s : InsSt) (b : Nat) : InsSt :=
  let cur := (getAt s.root s.path).getD ⟨[], 0, []⟩
  let length := s.length + 1
  if cur.refs = 0 then
    { s with
      root := modifyAt s.root s.path fun n => ⟨n.value ++ [b], n.refs, n.children⟩
      cursor := s.cursor + 1, length := length }
  else if s.cursor < cur.value.length ∧ cur.value.getD s.cursor 0 = b then
    { s with cursor := s.cursor + 1, length := length }
  else if (findC cur.children b).isSome then
    { s with
      root := modifyAt s.root s.path fun n => ⟨n.value, n.refs + 1, n.children⟩
      cursor := 1, path := s.path ++ [b], length := length }
  else
    let root1 :=
      if s.cursor < cur.value.length then modifyAt s.root s.path (splitNodeF s.cursor)
      else s.root
    let lookup1 :=
      if s.cursor < cur.value.length then
        correctPaths s.lookup s.path (cur.value.getD s.cursor 0)
      else s.lookup
    let root2 :=
      modifyAt root1 s.path fun n => ⟨n.value, n.refs + 1, setC n.children b ⟨[b], 0, []⟩⟩
    ⟨root2, lookup1, s.path ++ [b], 0, length⟩

/-- The tail of Insert after the byte source is exhausted: a final split when
the current value was only partially matched, the terminal refs increment,
and the registration of (path, length) under the name. -/
def insFinish (name : String) (s : InsSt) : Store :=
  let cur := (getAt s.root s.path).getD ⟨[], 0, []⟩
  let root1 :=
    if s.cursor < cur.value.length then modifyAt s.root s.path (splitNodeF s.cursor)
    else s.root
  let lookup1 :=
    if s.cursor < cur.value.length then
      correctPaths s.lookup s.path (cur.value.getD s.cursor 0)
    else s.lookup
  let root2 := modifyAt root1 s.path fun n => ⟨n.value, n.refs + 1, n.children⟩
  ⟨root2, fun nm => if nm = name then some ⟨s.path, s.length⟩ else lookup1 nm⟩

/-- The refs-decrement walk of cleanup: decrements every node it leaves while
descending the path; none when a child key dangles (the source would then
dereference nil, on the next decrement or on the final terminal refs read). -/
def decPath : Node → List Nat → Option Node
  | n, [] => some n
  | n, b :: rest =>
    match findC n.children b with
    | some c => (decPath c rest).map fun c' => ⟨n.value, n.refs - 1, setC n.children b c'⟩
    | none => none

/-- The reclamation step of cleanup at the parent of the terminal: remove the
child keyed v, then heal when exactly one child remains and its refs equal the
parent's, by absorbing that child's value and adopting its children. -/
def healParent (v : Nat) (p : Node) : Node :=
  let cs := delC p.children v
  match cs with
  | [(_, c)] =>
    if p.refs = c.refs then ⟨p.value ++ c.value, p.refs, c.children⟩
    else ⟨p.value, p.refs, cs⟩
  | _ => ⟨p.value, p.refs, cs⟩

/-- cleanup(path) of the source, run to completion: decrement along the path,
then if the terminal's refs is exactly 1 and it has a parent, delete it from
the parent and maybe heal. -/
def cleanupW (root : Node) (path : List Nat) : Option Node :=
  (decPath root path).bind fun root' =>
    match getAt root' path with
    | none => none
    | some t =>
      if t.refs = 1 then
        match path.getLast? with
        | some v => some (modifyAt root' path.dropLast (healParent v))
        | none => some root'
      else some root'

/-- Delete(target) of the source, with its cleanup completed: false when the
name is absent, otherwise the record is removed and the path cleaned up. -/
def deleteGo (s : Store) (target : String) : Option (Bool × Store) :=
  match s.lookup target with
  | none => some (false, s)
  | some lk =>
    (cleanupW s.root lk.path).map fun root' =>
      (true, ⟨root', fun nm => if nm = target then none else s.lookup nm⟩)

/-- Insert(name, file) of the source over a fully consumed byte list: an
existing entry under the same name is deleted first (cleanup completed), then
the byte loop runs from the root with cursor 0 and the insert is finished. -/
def insertGo (s : Store) (name : String) (content : List Nat) : Option Store :=
  let pre :=
    match s.lookup name with
    | some _ => (deleteGo s name).map Prod.snd
    | none => some s
  pre.map fun s1 =>
    insFinish name (content.foldl insStep ⟨s1.root, s1.lookup, [], 0, 0⟩)

/-- The refs-increment walk of Copy: increments every node it leaves while
descending; a dangling key anywhere but the last position makes the next
increment dereference nil (none); a dangling last key returns normally, as in
the source. -/
def bumpWalk : Node → List Nat → Option Node
  | n, [] => some n
  | n, b :: rest =>
    match findC n.children b with
    | some c => (bumpWalk c rest).map fun c' => ⟨n.value, n.refs + 1, setC n.children b c'⟩
    | none =>
      if rest.isEmpty then some ⟨n.value, n.refs + 1, n.children⟩ else none

/-- Copy(target, name) of the source: false when target equals name or target
is absent; otherwise name receives a record with the same path and length and
the refs walk runs along the path. -/
def copyGo (s : Store) (target name : String) : Option (Bool × Store) :=
  if target = name then some (false, s)
  else
    match s.lookup target with
    | none => some (false, s)
    | some lk =>
      (bumpWalk s.root lk.path).map fun root' =>
        (true, ⟨root', fun nm => if nm = name then some ⟨lk.path, lk.length⟩ else s.lookup nm⟩)

/-- The outcome of Get: absent name, a crash (nil child dereference or an
out-of-range reslice of the result buffer), or returned bytes. -/
inductive GetRes where
  | notFound
  | crash
  | ok (bs : List Nat)
  deriving DecidableEq, Repr

/-- One copy(result, cursor, v) of Get: overwrite res from position cursor
with as much of v as fits, leaving the rest of res unchanged. -/
def writeAt (res : List Nat) (cursor : Nat) (v : List Nat) : List Nat :=
  res.take cursor ++ v.take (res.length - cursor) ++ res.drop (cursor + v.length)

/-- The path walk of Get: descend along the recorded keys, copying each
child's value at the running cursor.  none models the two source panics: a
missing child (nil dereference) and a cursor beyond the buffer (reslice out
of range). -/
def getLoop : Node → List Nat → Nat → List Nat → Option (List Nat)
  | _, res, _, [] => some res
  | n, res, cursor, b :: rest =>
    match findC n.children b with
    | none => none
    | some c =>
      if cursor ≤ res.length then
        getLoop c (writeAt res cursor c.value) (cursor + c.value.length) rest
      else none

/-- Get(target) of the source: not-found for an absent name, otherwise a
zero-filled buffer of the recorded length is filled from the root's value and
the values along the recorded path. -/
def getGo (s : Store) (target : String) : GetRes :=
  match s.lookup target with
  | none => .notFound
  | some lk =>
    let res0 := List.replicate lk.length 0
    match getLoop s.root (writeAt res0 0 s.root.value) s.root.value.length lk.path with
    | none => .crash
    | some bs => .ok bs

/-- The bytes supplied by the walk of Get below a node: the concatenation of
the child values along the recorded keys (none when a key dangles).  Used to
state what Get reconstructs. -/
def chainSuffix : Node → List Nat → Option (List Nat)
  | _, [] => some []
  | n, b :: rest =>
    match findC n.children b with
    | some c => (chainSuffix c rest).map fun s => c.value ++ s
    | none => none

mutual

/-- Total stored bytes across all node values of a tree (the quantity of the
spec's storage-sharing property). -/
def totalBytes : Node → Nat
  | ⟨v, _, cs⟩ => v.length + totalBytesL cs

def totalBytesL : List (Nat × Node) → Nat
  | [] => 0
  | c :: rest => totalBytes c.2 + totalBytesL rest

end

/-- The store after inserting contents abc then abb (the names n1, n2) into
an empty store: the concrete scenario of claims C1 and C7. -/
def storeTwo : Option Store :=
  (insertGo emptyStore "n1" [97, 98, 99]).bind fun s => insertGo s "n2" [97, 98, 98]

/-- The store after inserting content abc under the name a and then content a
under the name r: the file named a is reconstructed correctly here, its path
is the one-key list [98]. -/
def storeAR : Option Store :=
  (insertGo emptyStore "a" [97, 98, 99]).bind fun s => insertGo s "r" [97]

/-- storeAR as a plain store (the insert sequence succeeds). -/
def sAR : Store := storeAR.getD emptyStore

/-- A one-file store whose single record has the empty path: its terminal
node is the root. -/
def storeX : Option Store := insertGo emptyStore "a" [120]

/-- storeAR after Copy(a, b). -/
def storeARCopy : Option (Bool × Store) := storeAR.bind fun s => copyGo s "a" "b"

/-- storeARCopy after Delete(a), cleanup completed. -/
def storeARCopyDel : Option (Bool × Store) := storeARCopy.bind fun r => deleteGo r.2 "a"

/-- Two names x and y inserted with the identical one-byte content: both
records have the empty path, so the root is a node shared by both files. -/
def storeSame : Option Store :=
  (insertGo emptyStore "x" [97]).bind fun s => insertGo s "y" [97]

/-- storeSame after Delete(x), cleanup completed. -/
def storeSameDel : Option (Bool × Store) := storeSame.bind fun s => deleteGo s "x"

/-- Witness data for C5: the two-file store of storeAR, with the insert loop
of a fresh file already advanced through the byte 97. -/
def c5st : InsSt := insStep ⟨sAR.root, sAR.lookup, [], 0, 0⟩ 97

/-- The current node of c5st (the root of sAR). -/
def c5n : Node := ⟨[97], 2, [(98, ⟨[98, 99], 1, []⟩)]⟩

/-- The child keyed 98 of c5n. -/
def c5c : Node := ⟨[98, 99], 1, []⟩

/-- A one-file store holding abc under the name n1. -/
def sN1 : Store := (insertGo emptyStore "n1" [97, 98, 99]).getD emptyStore

/-- The store after Insert(abc), Insert(abd), Insert(ax), Insert(abce): the
name abce is recorded with the three-key path 98, 99, 101. -/
def storeHeal : Option Store :=
  (((insertGo emptyStore "abc" [97, 98, 99]).bind fun s =>
    insertGo s "abd" [97, 98, 100]).bind fun s =>
    insertGo s "ax" [97, 120]).bind fun s =>
    insertGo s "abce" [97, 98, 99, 101]

/-- storeHeal after Delete(abd) with cleanup completed: the cleanup heals
the node keyed 98 with its sole remaining child, so the recorded path of
abce dangles at its second key while abce stays present. -/
def storeHealDel : Option (Bool × Store) := storeHeal.bind fun s => deleteGo s "abd"

/-!
Slice-level model of the path records, needed for C4.  The by-value model
above is observationally exact whenever no two live records share one path
pointer; after Copy two lookerups hold the same pointer to one Go byte
slice, and the source's insertPath then mutates the shared backing array in
place (its append re-uses the array whenever capacity allows, as the Go
language specification mandates, and the shifting copy writes through it).
The definitions below model exactly that: a heap of backing arrays and of
slice variables.  Every header the source stores starts at offset 0 of its
array with capacity equal to the array size, so a header is an array index
and a length.
-/

/-- A stored Go byte-slice header: backing-array index and length.  The
capacity is the length of the backing array itself. -/
structure SliceH where
  arr : Nat
  len : Nat
  deriving DecidableEq, Repr

/-- The heap of the path records: backing arrays (a cell holds the whole
allocated array, so its length is the capacity) and slice variables, the
targets of the Go path pointers.  Copy makes two records hold the same
variable index. -/
structure PathHeap where
  arrays : List (List Nat)
  vars : List SliceH
  deriving DecidableEq, Repr

/-- The bytes a Go read of the slice variable ptr sees. -/
def readPath (H : PathHeap) (ptr : Nat) : List Nat :=
  let h := H.vars.getD ptr ⟨0, 0⟩
  (H.arrays.getD h.arr []).take h.len

/-- Go append of one byte to the header h, as the language specification
fixes it: with spare capacity the backing array is re-used and the byte is
written in place at index len; otherwise a fresh array holding the old
contents and the byte is allocated.  The capacity a fresh allocation
receives is runtime-defined; the model gives it no spare room, and the
failing trace of C4 takes only the re-use branch. -/
def appendGo (H : PathHeap) (h : SliceH) (v : Nat) : PathHeap × SliceH :=
  let a := H.arrays.getD h.arr []
  if h.len < a.length then
    (⟨H.arrays.set h.arr (a.set h.len v), H.vars⟩, ⟨h.arr, h.len + 1⟩)
  else
    (⟨H.arrays ++ [a.take h.len ++ [v]], H.vars⟩, ⟨H.arrays.length, h.len + 1⟩)

/-- The two mutating lines of insertPath on the backing array of the header
p (of length at least at_ + 1): copy(p at_+1 onward, p at_ onward) shifts
positions at_ .. len-2 up by one, then position at_ receives v.  Every other
header over the same array sees the writes. -/
def shiftInsGo (H : PathHeap) (p : SliceH) (at_ : Nat) (v : Nat) : PathHeap :=
  let a := H.arrays.getD p.arr []
  let a1 := a.take at_ ++ [v] ++ (a.drop at_).take (p.len - 1 - at_) ++ a.drop p.len
  ⟨H.arrays.set p.arr a1, H.vars⟩

/-- insertPath of the source at slice level, line by line: p gets the
appended slice (re-using the backing array when capacity allows), the shift
and the element write mutate that array, and the address of p, a fresh
variable, is returned. -/
def insertPathGo (H : PathHeap) (ptr : Nat) (at_ : Nat) (v : Nat) : PathHeap × Nat :=
  let h := H.vars.getD ptr ⟨0, 0⟩
  let hp := appendGo H h 0
  let H2 := shiftInsGo hp.1 hp.2 at_ v
  (⟨H2.arrays, H2.vars ++ [hp.2]⟩, H2.vars.length)

/-- The correction loop of splitNode at slice level: users is the
partialFind selection, name and path pointer both captured before any
update runs, as in the source; the iteration order of the Go map is the
explicit order of the list.  Each user's record is repointed at the fresh
variable insertPathGo returns. -/
def correctLoopGo (H : PathHeap) (recs : List (String × Nat)) :
    List (String × Nat) → Nat → Nat → PathHeap × List (String × Nat)
  | [], _, _ => (H, recs)
  | (nm, ptr) :: rest, at_, v =>
    let r1 := insertPathGo H ptr at_ v
    correctLoopGo r1.1 (recs.map fun r => if r.1 = nm then (nm, r1.2) else r) rest at_ v

/-- The path heap reached just before the split-correction loop of
Insert(D, x) in the trace Insert(A, ab), Insert(B, ac), Copy(A, C),
Insert(D, x) under the gc Go runtime.  Variable 0 (the path of A, shared
with C by Copy) holds one key, the byte 98, in backing array 0; variable 1
(the path of B) holds the byte 99 in backing array 1.  Both arrays carry
the capacity 8 that the runtime's byte size class gives a one-byte
allocation (Go zero-fills fresh arrays; any spare capacity at all produces
the same corruption).  The split divides the root at cursor 0 with the
in-progress path empty and expected = 97, and partialFind of the empty
path selects all three records. -/
def c4Heap : PathHeap :=
  ⟨[[98, 0, 0, 0, 0, 0, 0, 0], [99, 0, 0, 0, 0, 0, 0, 0]], [⟨0, 1⟩, ⟨1, 1⟩]⟩

/-- The records before the correction loop: A and C share variable 0. -/
def c4Recs : List (String × Nat) := [("A", 0), ("B", 1), ("C", 0)]

/-- The correction loop run with A corrected before C. -/
def c4RunAC : PathHeap × List (String × Nat) :=
  correctLoopGo c4Heap c4Recs [("A", 0), ("B", 1), ("C", 0)] 0 97

/-- The correction loop run with C corrected before A.  B owns its backing
array alone, so only the relative order of A and C matters. -/
def c4RunCA : PathHeap × List (String × Nat) :=
  correctLoopGo c4Heap c4Recs [("C", 0), ("B", 1), ("A", 0)] 0 97

/-- The bytes the record of nm reads after a correction-loop run. -/
def c4Read (run : PathHeap × List (String × Nat)) (nm : String) : Option (List Nat) :=
  (run.2.lookup nm).map (readPath run.1)

@[simp] theorem Node.value_mk (v : List Nat) (r : Int) (cs : List (Nat × Node)) :
    (Node.mk v r cs).value = v := rfl

@[simp] theorem Node.refs_mk (v : List Nat) (r : Int) (cs : List (Nat × Node)) :
    (Node.mk v r cs).refs = r := rfl

@[simp] theorem Node.children_mk (v : List Nat) (r : Int) (cs : List (Nat × Node)) :
    (Node.mk v r cs).children = cs := rfl

theorem findC_setC_self (cs : List (Nat × Node)) (b : Nat) (x : Node) :
    findC (setC cs b x) b = some x := by
  induction cs with
  | nil => simp [setC, findC]
  | cons hd tl ih =>
    obtain ⟨k, c⟩ := hd
    by_cases hk : k = b
    · simp [setC, findC, hk]
    · simp [setC, findC, hk, ih]

theorem findC_setC_ne (cs : List (Nat × Node)) (a b : Nat) (x : Node) (h : a ≠ b) :
    findC (setC cs b x) a = findC cs a := by
  have hba : b ≠ a := h.symm
  induction cs with
  | nil => simp [setC, findC, hba]
  | cons hd tl ih =>
    obtain ⟨k, c⟩ := hd
    by_cases hk : k = b
    · subst hk
      simp [setC, findC, hba]
    · simp only [setC, if_neg hk]
      by_cases ha : k = a
      · simp [findC, ha]
      · simp [findC, ha, ih]

theorem setC_setC (cs : List (Nat × Node)) (b : Nat) (x y : Node) :
    setC (setC cs b x) b y = setC cs b y := by
  induction cs with
  | nil => simp [setC]
  | cons hd tl ih =>
    obtain ⟨k, c⟩ := hd
    by_cases hk : k = b
    · simp [setC, hk]
    · simp [setC, hk, ih]

theorem getAt_modifyAt_self (p : List Nat) : ∀ (n : Node) (f : Node → Node),
    getAt (modifyAt n p f) p = (getAt n p).map f := by
  induction p with
  | nil => intro n f; simp [getAt, modifyAt]
  | cons b rest ih =>
    intro n f
    obtain ⟨v, r, cs⟩ := n
    cases hc : findC cs b with
    | none => simp [getAt, modifyAt, hc]
    | some c =>
      simp only [getAt, modifyAt, Node.children_mk, hc, findC_setC_self]
      exact ih c f

theorem modifyAt_modifyAt (p : List Nat) : ∀ (n : Node) (f g : Node → Node),
    modifyAt (modifyAt n p f) p g = modifyAt n p (fun x => g (f x)) := by
  induction p with
  | nil => intro n f g; simp [modifyAt]
  | cons b rest ih =>
    intro n f g
    obtain ⟨v, r, cs⟩ := n
    cases hc : findC cs b with
    | none => simp [modifyAt, hc]
    | some c =>
      simp only [modifyAt, Node.children_mk, Node.value_mk, Node.refs_mk, hc, findC_setC_self]
      rw [setC_setC, ih]

theorem getAt_append (p : List Nat) : ∀ (q : List Nat) (n : Node),
    getAt n (p ++ q) = (getAt n p).bind fun m => getAt m q := by
  induction p with
  | nil => intro q n; simp [getAt]
  | cons b rest ih =>
    intro q n
    obtain ⟨v, r, cs⟩ := n
    cases hc : findC cs b with
    | none => simp [getAt, hc]
    | some c => simp [getAt, hc, ih]

theorem frontOfB_take (q : List Nat) : ∀ k, frontOfB (q.take k) q = true := by
  induction q with
  | nil => intro k; simp [frontOfB]
  | cons b rest ih =>
    intro k
    cases k with
    | zero => simp [frontOfB]
    | succ j => simp [frontOfB, ih j]

theorem take_ne_of_lt (q : List Nat) (k : Nat) (h : k < q.length) : q.take k ≠ q := by
  intro he
  have := congrArg List.length he
  simp [List.length_take] at this
  omega

/-- Full effect of the refs walk of Copy on a store whose target path is
intact: the walk succeeds, the terminal node and its subtree are untouched,
and the node at any key list p keeps its value and presence, its refs growing
by one exactly when p is a proper leading segment of the walked path. -/
theorem bumpWalk_getAt (q : List Nat) : ∀ (r t : Node), getAt r q = some t →
    ∃ r', bumpWalk r q = some r' ∧ getAt r' q = some t ∧
      ∀ p, ((getAt r' p).isSome = (getAt r p).isSome) ∧
           ((getAt r' p).map Node.value = (getAt r p).map Node.value) ∧
           ((getAt r' p).map Node.refs =
             (getAt r p).map fun m => m.refs + (if frontOfB p q = true ∧ p ≠ q then 1 else 0)) := by
  induction q with
  | nil =>
    intro r t ht
    refine ⟨r, rfl, ht, fun p => ⟨rfl, rfl, ?_⟩⟩
    have hcond : ¬(frontOfB p [] = true ∧ p ≠ []) := by
      rcases p with _ | ⟨a, ps⟩
      · simp
      · simp [frontOfB]
    rw [if_neg hcond]
    cases getAt r p <;> simp
  | cons b rest ih =>
    intro r t ht
    obtain ⟨v, rr, cs⟩ := r
    cases hc : findC cs b with
    | none => simp [getAt, hc] at ht
    | some c =>
      have htc : getAt c rest = some t := by simpa [getAt, hc] using ht
      obtain ⟨c', hbw, hq, hp⟩ := ih c t htc
      refine ⟨⟨v, rr + 1, setC cs b c'⟩, ?_, ?_, ?_⟩
      · simp [bumpWalk, hc, hbw]
      · simp [getAt, findC_setC_self, hq]
      · intro p
        rcases p with _ | ⟨a, ps⟩
        · refine ⟨by simp [getAt], by simp [getAt], ?_⟩
          have hcond : frontOfB [] (b :: rest) = true ∧ ([] : List Nat) ≠ b :: rest := by
            simp [frontOfB]
          have h0 : (if frontOfB [] (b :: rest) = true ∧ ([] : List Nat) ≠ b :: rest then (1 : Int) else 0) = 1 :=
            if_pos hcond
          simp only [getAt, h0]
          simp
        · by_cases hab : a = b
          · subst hab
            have h1 : getAt (⟨v, rr + 1, setC cs a c'⟩ : Node) (a :: ps) = getAt c' ps := by
              simp [getAt, findC_setC_self]
            have h2 : getAt (⟨v, rr, cs⟩ : Node) (a :: ps) = getAt c ps := by
              simp [getAt, hc]
            obtain ⟨ha1, ha2, ha3⟩ := hp ps
            rw [h1, h2]
            refine ⟨ha1, ha2, ?_⟩
            rw [ha3]
            have hind : (if frontOfB ps rest = true ∧ ps ≠ rest then (1 : Int) else 0) =
                (if frontOfB (a :: ps) (a :: rest) = true ∧ (a :: ps) ≠ (a :: rest) then (1 : Int) else 0) := by
              simp [frontOfB]
            cases getAt c ps <;> simp [hind]
          · have h1 : getAt (⟨v, rr + 1, setC cs b c'⟩ : Node) (a :: ps) =
                getAt (⟨v, rr, cs⟩ : Node) (a :: ps) := by
              cases hca : findC cs a <;>
                simp [getAt, findC_setC_ne cs a b c' hab, hca]
            rw [h1]
            refine ⟨rfl, rfl, ?_⟩
            have hind : (if frontOfB (a :: ps) (b :: rest) = true ∧ (a :: ps) ≠ (b :: rest) then (1 : Int) else 0) = 0 := by
              have hf : frontOfB (a :: ps) (b :: rest) = false := by
                simp [frontOfB, hab]
              simp [hf]
            simp only [hind]
            cases getAt (⟨v, rr, cs⟩ : Node) (a :: ps) <;> simp

/-- C1: the round-trip property fails on the code.  Inserting content abc
under n1 and then content abb under n2 into an empty store makes Get(n2)
return the bytes 97, 98, 0 instead of 97, 98, 98: the insert of n2 ends
inside a node it created itself with the cursor one short of the value
length, so the closing split displaces the final byte 98 into a child that
the recorded path never reaches, and Get zero-fills the missing position. -/
theorem c1_roundtrip_bug :
    (storeTwo.map fun s => getGo s "n2") = some (.ok [97, 98, 0]) ∧
    (storeTwo.map fun s => getGo s "n2") ≠ some (.ok [97, 98, 98]) ∧
    (storeTwo.map fun s => getGo s "n1") = some (.ok [97, 98, 99]) := by
  decide

/-- C2: copy aliasing does not survive deletion of the source.  With abc
stored under a (reconstructed correctly) and a second file r making the path
of a nonempty, Copy(a, b) then Delete(a) with cleanup completed reclaims the
terminal node of the shared path, because Copy never increments the terminal
refs while Insert did: Get(b) then dereferences a missing child and crashes
instead of returning the bytes Get(a) returned before. -/
theorem c2_copy_aliasing_bug :
    (storeAR.map fun s => getGo s "a") = some (.ok [97, 98, 99]) ∧
    (storeARCopy.map Prod.fst) = some true ∧
    (storeARCopyDel.map Prod.fst) = some true ∧
    (storeARCopyDel.map fun r => (r.2.lookup "b").isSome) = some true ∧
    (storeARCopyDel.map fun r => getGo r.2 "b") = some .crash ∧
    (storeARCopyDel.map fun r => getGo r.2 "b") ≠ some (.ok [97, 98, 99]) := by
  decide

/-- C3: refcount accounting fails on the code.  After inserting two files x
and y with identical content, the root is a node shared by both (both paths
are empty, refs is 2 as the claim says); but deleting x with cleanup
completed leaves the root refs at 2 instead of the claimed 1: the cleanup
walk decrements only the nodes it walks out of and never the terminal node
of the deleted path, while Insert had incremented the terminal. -/
theorem c3_refcount_bug :
    (storeSame.map fun s => ((s.lookup "x").map Lookerup.path, (s.lookup "y").map Lookerup.path))
      = some (some [], some []) ∧
    (storeSame.map fun s => s.root.refs) = some 2 ∧
    (storeSameDel.map Prod.fst) = some true ∧
    (storeSameDel.map fun r => r.2.root.refs) = some 2 ∧
    (storeSameDel.map fun r => r.2.root.refs) ≠ some 1 := by
  decide

/-- C7: the prefix-sharing scenario does not produce the claimed shape.
After inserting abc then abb, the root does hold the shared run ab with
exactly two children and the total stored bytes are 4, but the child keyed
98 holds the empty value with a refs-0 grandchild holding 98, instead of
holding the byte 98 itself: the closing split of the second insert fires
spuriously on the freshly built node. -/
theorem c7_sharing_bug :
    (storeTwo.map fun s => s.root.value) = some [97, 98] ∧
    (storeTwo.map fun s => s.root.refs) = some 2 ∧
    (storeTwo.map fun s => s.root.children.length) = some 2 ∧
    (storeTwo.map fun s => (findC s.root.children 99).map Node.value) = some (some [99]) ∧
    (storeTwo.map fun s => (findC s.root.children 98).map Node.value) = some (some []) ∧
    (storeTwo.map fun s => (findC s.root.children 98).map Node.value) ≠ some (some [98]) ∧
    (storeTwo.map fun s => (getAt s.root [98, 98]).map fun n => (n.value, n.refs))
      = some (some ([98], 0)) ∧
    (storeTwo.map fun s => totalBytes s.root) = some 4 := by
  decide

/-- C5 counterexample: in a store where the record named a is correct and
the root has a child keyed 98, stepping the insert loop of a new file
through byte 97 (a value match) and then byte 98 meets the case-C guard
(nonzero refs, no value byte left at the cursor, child present); the step
leaves the refs of the descended-into child at 1 instead of incrementing
them to 2, while incrementing the refs of the node it departed. -/
theorem c5_cex :
    (let st := insStep ⟨sAR.root, sAR.lookup, [], 0, 0⟩ 97
     ((getAt st.root st.path).map Node.refs = some 2) ∧
     st.cursor = 1 ∧
     ((getAt st.root st.path).map fun n => n.value.length) = some 1 ∧
     ((getAt st.root st.path).map fun n => (findC n.children 98).isSome) = some true ∧
     ((getAt (insStep st 98).root [98]).map Node.refs = some 1) ∧
     ¬((getAt (insStep st 98).root [98]).map Node.refs = some 2) ∧
     ((getAt (insStep st 98).root []).map Node.refs = some 3)) := by
  decide

/-- C6 counterexample: in a one-file store whose record has the empty path,
the terminal node of the path is the root itself; Copy(a, b) succeeds and
binds b, but the refs of the root, a node along the path from the root to
the terminal node, stay at 1 instead of rising to 2: the walk of Copy
increments only the nodes it leaves and never the terminal. -/
theorem c6_cex :
    (storeX.map fun s => (s.lookup "a").map Lookerup.path) = some (some []) ∧
    (storeX.map fun s => s.root.refs) = some 1 ∧
    ((storeX.bind fun s => copyGo s "a" "b").map fun r =>
      (r.1, r.2.root.refs, (r.2.lookup "b").isSome)) = some (true, 1, true) ∧
    ((storeX.bind fun s => copyGo s "a" "b").map fun r => r.2.root.refs) ≠ some 2 := by
  decide

/-- C8: Get, Copy and Delete on a name absent from the path index report
failure through their boolean result, Copy with identical source and
destination returns false, and in every such failing case the node graph and
the path index are returned unchanged. -/
theorem c8_failure_handling (s : Store) (name other : String)
    (h : s.lookup name = none) :
    getGo s name = .notFound ∧
    copyGo s name other = some (false, s) ∧
    deleteGo s name = some (false, s) ∧
    ∀ t : String, copyGo s t t = some (false, s) := by
  refine ⟨?_, ?_, ?_, ?_⟩
  · simp [getGo, h]
  · by_cases he : name = other
    · simp [copyGo, he]
    · simp [copyGo, he, h]
  · simp [deleteGo, h]
  · intro t
    simp [copyGo]

/-- Witness for C8 at the empty store and the names x, y. -/
theorem c8_failure_handling_witness :
    (emptyStore.lookup "x" = none) ∧
    (getGo emptyStore "x" = .notFound ∧
     copyGo emptyStore "x" "y" = some (false, emptyStore) ∧
     deleteGo emptyStore "x" = some (false, emptyStore) ∧
     ∀ t : String, copyGo emptyStore t t = some (false, emptyStore)) :=
  ⟨rfl, c8_failure_handling emptyStore "x" "y" rfl⟩

/-- C5 (amended): when the incoming byte b neither extends an unfinalized
node (refs is nonzero) nor matches the value at the cursor, but a child
keyed b exists, the insert step descends into that child, appends b to the
in-progress path, resets the cursor to 1, and increments by one the refs of
the node it departs, leaving the child node (refs included) unchanged; the
claim instead said the refs of the child are incremented. -/
theorem c5_amended (s : InsSt) (b : Nat) (n c : Node)
    (hn : getAt s.root s.path = some n) (h0 : ¬n.refs = 0)
    (hB : ¬(s.cursor < n.value.length ∧ n.value.getD s.cursor 0 = b))
    (hC : findC n.children b = some c) :
    (insStep s b).path = s.path ++ [b] ∧
    (insStep s b).cursor = 1 ∧
    (insStep s b).length = s.length + 1 ∧
    (insStep s b).lookup = s.lookup ∧
    getAt (insStep s b).root s.path = some ⟨n.value, n.refs + 1, n.children⟩ ∧
    getAt (insStep s b).root (s.path ++ [b]) = some c := by
  have hcur : (getAt s.root s.path).getD ⟨[], 0, []⟩ = n := by rw [hn]; rfl
  have hCs : (findC n.children b).isSome = true := by rw [hC]; rfl
  simp only [insStep, hcur, if_neg h0, if_neg hB, hCs, if_true]
  refine ⟨trivial, trivial, trivial, trivial, ?_, ?_⟩
  · rw [getAt_modifyAt_self, hn]
    rfl
  · rw [getAt_append, getAt_modifyAt_self, hn]
    simp [getAt, hC]

/-- Witness for C5 at the state c5st and the byte 98. -/
theorem c5_amended_witness :
    (getAt c5st.root c5st.path = some c5n ∧ ¬c5n.refs = 0 ∧
     ¬(c5st.cursor < c5n.value.length ∧ c5n.value.getD c5st.cursor 0 = 98) ∧
     findC c5n.children 98 = some c5c) ∧
    ((insStep c5st 98).path = c5st.path ++ [98] ∧
     (insStep c5st 98).cursor = 1 ∧
     (insStep c5st 98).length = c5st.length + 1 ∧
     (insStep c5st 98).lookup = c5st.lookup ∧
     getAt (insStep c5st 98).root c5st.path = some ⟨c5n.value, c5n.refs + 1, c5n.children⟩ ∧
     getAt (insStep c5st 98).root (c5st.path ++ [98]) = some c5c) :=
  ⟨⟨by rfl, by decide, by decide, by rfl⟩,
   c5_amended c5st 98 c5n c5c (by rfl) (by decide) (by decide) (by rfl)⟩

/-- C4: the split postcondition fails on the code when records alias one
path pointer.  The claim requires every file whose recorded path has the
in-progress path as a byte-for-byte leading segment to receive the key
expected at index (length of the in-progress path).  In the trace
Insert(A, ab), Insert(B, ac), Copy(A, C), Insert(D, x), the split of the
root at cursor 0 selects A, B and C, and A and C share one path pointer to
a one-key slice with spare capacity; the claimed corrected path is
insertPath of the one-key path 98, namely 97, 98.  The source's insertPath
re-uses the shared backing array, so whichever of A and C is corrected
second reads the already-mutated array and both records end reading
97, 97 - in either iteration order of the aliased pair - while the
unaliased record B is corrected to 97, 99 as claimed. -/
theorem c4_split_alias_bug :
    insertPath [98] 0 97 = [97, 98] ∧
    c4Read c4RunAC "A" = some [97, 97] ∧
    c4Read c4RunAC "C" = some [97, 97] ∧
    c4Read c4RunAC "B" = some [97, 99] ∧
    c4Read c4RunCA "A" = some [97, 97] ∧
    c4Read c4RunCA "C" = some [97, 97] ∧
    c4Read c4RunCA "B" = some [97, 99] ∧
    c4Read c4RunAC "A" ≠ some [97, 98] ∧
    c4Read c4RunAC "C" ≠ some [97, 98] := by
  decide

/-- C6 (amended): Copy(target, name) on a present target with a distinct
name returns true, binds name to a record with the same path and length, and
increments by one the refs of every node along that path except the terminal
node, which it leaves wholly unchanged; the claim instead said every node
from the root to the terminal inclusive is incremented. -/
theorem c6_amended (s : Store) (target name : String) (lk : Lookerup) (t : Node)
    (hne : ¬target = name) (hl : s.lookup target = some lk)
    (hv : getAt s.root lk.path = some t) :
    ∃ s', copyGo s target name = some (true, s') ∧
      s'.lookup name = some lk ∧
      s'.lookup target = some lk ∧
      (∀ nm, ¬nm = name → s'.lookup nm = s.lookup nm) ∧
      getAt s'.root lk.path = some t ∧
      (∀ k, k < lk.path.length →
        (getAt s'.root (lk.path.take k)).map Node.refs =
          (getAt s.root (lk.path.take k)).map fun m => m.refs + 1) := by
  obtain ⟨r', hbw, hq, hp⟩ := bumpWalk_getAt lk.path s.root t hv
  refine ⟨⟨r', fun nm => if nm = name then some ⟨lk.path, lk.length⟩ else s.lookup nm⟩,
    ?_, ?_, ?_, ?_, hq, ?_⟩
  · simp [copyGo, hne, hl, hbw]
  · simp
  · simp only []
    rw [if_neg hne]
    exact hl
  · intro nm hnm
    simp only []
    rw [if_neg hnm]
  · intro k hk
    have hcond : frontOfB (lk.path.take k) lk.path = true ∧ lk.path.take k ≠ lk.path :=
      ⟨frontOfB_take lk.path k, take_ne_of_lt lk.path k hk⟩
    have hone : (if frontOfB (lk.path.take k) lk.path = true ∧ lk.path.take k ≠ lk.path
        then (1 : Int) else 0) = 1 := if_pos hcond
    have := (hp (lk.path.take k)).2.2
    rw [this]
    simp only [hone]

/-- Witness for C6 at storeAR with target a (path with one key, length 3)
and name b. -/
theorem c6_amended_witness :
    (¬"a" = "b") ∧ sAR.lookup "a" = some ⟨[98], 3⟩ ∧
    getAt sAR.root [98] = some ⟨[98, 99], 1, []⟩ ∧
    (∃ s', copyGo sAR "a" "b" = some (true, s') ∧
      s'.lookup "b" = some ⟨[98], 3⟩ ∧
      s'.lookup "a" = some ⟨[98], 3⟩ ∧
      (∀ nm, ¬nm = "b" → s'.lookup nm = sAR.lookup nm) ∧
      getAt s'.root [98] = some ⟨[98, 99], 1, []⟩ ∧
      (∀ k, k < ([98] : List Nat).length →
        (getAt s'.root (([98] : List Nat).take k)).map Node.refs =
          (getAt sAR.root (([98] : List Nat).take k)).map fun m => m.refs + 1)) :=
  ⟨by decide, by rfl, by rfl,
   c6_amended sAR "a" "b" ⟨[98], 3⟩ ⟨[98, 99], 1, []⟩ (by decide) (by rfl) (by rfl)⟩

/-- C9 counterexample: the unamended claim quantifies over every store with
target and name both present and distinct, and such reachable stores exist
where Copy crashes instead of succeeding.  After Insert(abc), Insert(abd),
Insert(ax), Insert(abce) and Delete(abd) with cleanup completed, the heal
merges the node keyed 98 (value b, refs 2) with its sole remaining child
(value c, refs 2) into one node of value bc, so the surviving record of
abce, path 98, 99, 101, dangles at its second key at a non-terminal
position; with abc also present and distinct, Copy(abce, abc) dereferences
a nil child on its refs walk (a Go panic) rather than succeeding and
rebinding abc. -/
theorem c9_cex :
    (storeHealDel.map Prod.fst) = some true ∧
    (storeHealDel.map fun r => (r.2.lookup "abce").map Lookerup.path)
      = some (some [98, 99, 101]) ∧
    (storeHealDel.map fun r => (r.2.lookup "abc").isSome) = some true ∧
    ("abce" : String) ≠ "abc" ∧
    (storeHealDel.map fun r => (getAt r.2.root [98]).map Node.value)
      = some (some [98, 99]) ∧
    (storeHealDel.map fun r => (getAt r.2.root [98, 99]).isSome) = some false ∧
    (storeHealDel.map fun r => (copyGo r.2 "abce" "abc").isNone) = some true := by
  decide

/-- C9 (amended): Copy onto an existing destination overwrites without
cleanup, provided the target's recorded path is intact (every key resolves
to an existing child; a Delete whose cleanup heals a split can leave a
surviving record dangling, and Copy then crashes, as c9_cex shows).  Under
that proviso, when both target and name are present and distinct, Copy
succeeds and replaces the record of name by the record of target, and,
unlike Insert, it deletes nothing first: every node of the graph survives
at its position and no refs anywhere decrease, so the nodes along the
previous path of name are neither decremented nor reclaimed. -/
theorem c9_copy_overwrite (s : Store) (target name : String) (lkT lkN : Lookerup) (t : Node)
    (hne : ¬target = name) (hT : s.lookup target = some lkT) (hN : s.lookup name = some lkN)
    (hv : getAt s.root lkT.path = some t) :
    ∃ s', copyGo s target name = some (true, s') ∧
      s'.lookup name = some lkT ∧
      (∀ p, (getAt s'.root p).isSome = (getAt s.root p).isSome) ∧
      (∀ p m m', getAt s.root p = some m → getAt s'.root p = some m' → m.refs ≤ m'.refs) := by
  obtain ⟨r', hbw, hq, hp⟩ := bumpWalk_getAt lkT.path s.root t hv
  refine ⟨⟨r', fun nm => if nm = name then some ⟨lkT.path, lkT.length⟩ else s.lookup nm⟩,
    ?_, ?_, ?_, ?_⟩
  · simp [copyGo, hne, hT, hbw]
  · simp
  · intro p
    exact (hp p).1
  · intro p m m' hm hm'
    have href := (hp p).2.2
    rw [hm, hm'] at href
    simp only [Option.map_some'] at href
    have heq : m'.refs = m.refs +
        (if frontOfB p lkT.path = true ∧ p ≠ lkT.path then (1 : Int) else 0) := by
      exact Option.some.inj href
    by_cases hcond : frontOfB p lkT.path = true ∧ p ≠ lkT.path
    · rw [if_pos hcond] at heq
      omega
    · rw [if_neg hcond] at heq
      omega

/-- Witness for C9 at storeAR with target a and name r (both present). -/
theorem c9_copy_overwrite_witness :
    (¬"a" = "r") ∧ sAR.lookup "a" = some ⟨[98], 3⟩ ∧
    sAR.lookup "r" = some ⟨[], 1⟩ ∧
    getAt sAR.root [98] = some ⟨[98, 99], 1, []⟩ ∧
    (∃ s', copyGo sAR "a" "r" = some (true, s') ∧
      s'.lookup "r" = some ⟨[98], 3⟩ ∧
      (∀ p, (getAt s'.root p).isSome = (getAt sAR.root p).isSome) ∧
      (∀ p m m', getAt sAR.root p = some m → getAt s'.root p = some m' →
        m.refs ≤ m'.refs)) :=
  ⟨by decide, by rfl, by rfl, by rfl,
   c9_copy_overwrite sAR "a" "r" ⟨[98], 3⟩ ⟨[], 1⟩ ⟨[98, 99], 1, []⟩
     (by decide) (by rfl) (by rfl) (by rfl)⟩

theorem length_takePad (X : List Nat) (L : Nat) :
    (X.take L ++ List.replicate (L - X.length) 0).length = L := by
  simp only [List.length_append, List.length_take, List.length_replicate]
  omega

theorem writeAt_shape (S v : List Nat) (L : Nat) (h : S.length ≤ L) :
    writeAt (S.take L ++ List.replicate (L - S.length) 0) S.length v =
      (S ++ v).take L ++ List.replicate (L - (S ++ v).length) 0 := by
  have hS : S.take L = S := List.take_of_length_le h
  rw [hS]
  unfold writeAt
  have hlen : (S ++ List.replicate (L - S.length) (0 : Nat)).length = L := by
    simp only [List.length_append, List.length_replicate]
    omega
  rw [hlen, List.take_left, List.drop_append_eq_append_drop,
    List.drop_eq_nil_of_le (by omega : S.length ≤ S.length + v.length),
    List.drop_replicate, List.take_append_eq_append_take, hS,
    List.append_assoc]
  simp only [List.nil_append, List.length_append]
  have harith : L - S.length - (S.length + v.length - S.length) = L - (S.length + v.length) := by
    omega
  rw [harith]
  exact (List.append_assoc S _ _).symm

/-- What a successful walk of Get computes: starting from a buffer holding S
truncated to L and zero-filled, a walk along q from n that returns a result
yields the whole supplied byte chain, truncated to L and zero-filled. -/
theorem getLoop_spec (q : List Nat) : ∀ (n : Node) (S : List Nat) (L : Nat) (out : List Nat),
    getLoop n (S.take L ++ List.replicate (L - S.length) 0) S.length q = some out →
    ∃ tail, chainSuffix n q = some tail ∧
      out = (S ++ tail).take L ++ List.replicate (L - (S ++ tail).length) 0 := by
  induction q with
  | nil =>
    intro n S L out hout
    refine ⟨[], rfl, ?_⟩
    simp only [getLoop] at hout
    simp [← Option.some.inj hout]
  | cons b rest ih =>
    intro n S L out hout
    cases hc : findC n.children b with
    | none => simp [getLoop, hc] at hout
    | some c =>
      have hlen : (S.take L ++ List.replicate (L - S.length) (0 : Nat)).length = L :=
        length_takePad S L
      by_cases hSL : S.length ≤ L
      · simp only [getLoop, hc, hlen, if_pos hSL] at hout
        rw [writeAt_shape S c.value L hSL] at hout
        have hcur : S.length + c.value.length = (S ++ c.value).length := by simp
        rw [hcur] at hout
        obtain ⟨tail, hcs, hout'⟩ := ih c (S ++ c.value) L out hout
        refine ⟨c.value ++ tail, ?_, ?_⟩
        · simp [chainSuffix, hc, hcs]
        · rw [hout', List.append_assoc]
      · exfalso
        simp only [getLoop, hc, hlen, if_neg hSL] at hout
        exact Option.noConfusion hout

/-- C10 (amended): when Get on a present name returns a result (rather than
crashing on a desynchronized path, which the counterexample shows possible),
that result has exactly the recorded length: the byte chain supplied by the
walk is truncated to the recorded length (bytes beyond it are dropped) and
any missing positions hold zero bytes.  The claim as stated, for every
present name unconditionally, fails because the walk can instead crash. -/
theorem c10_amended (s : Store) (target : String) (lk : Lookerup) (bs : List Nat)
    (hl : s.lookup target = some lk) (hok : getGo s target = .ok bs) :
    bs.length = lk.length ∧
    ∃ tail, chainSuffix s.root lk.path = some tail ∧
      bs = (s.root.value ++ tail).take lk.length ++
        List.replicate (lk.length - (s.root.value ++ tail).length) 0 := by
  have hG : getLoop s.root (writeAt (List.replicate lk.length 0) 0 s.root.value)
      s.root.value.length lk.path = some bs := by
    unfold getGo at hok
    simp only [hl] at hok
    cases hw : getLoop s.root (writeAt (List.replicate lk.length 0) 0 s.root.value)
        s.root.value.length lk.path with
    | none => rw [hw] at hok; exact absurd hok (by simp)
    | some bs' => rw [hw] at hok; exact congrArg some (GetRes.ok.inj hok)
  have hinit : writeAt (List.replicate lk.length (0 : Nat)) 0 s.root.value =
      s.root.value.take lk.length ++ List.replicate (lk.length - s.root.value.length) 0 := by
    unfold writeAt
    simp [List.drop_replicate]
  rw [hinit] at hG
  obtain ⟨tail, hcs, hout⟩ := getLoop_spec lk.path s.root s.root.value lk.length bs hG
  refine ⟨?_, tail, hcs, hout⟩
  rw [hout]
  exact length_takePad _ _

/-- C10 counterexample: in the store reached by Insert(a, abc), Insert(r, a),
Copy(a, b), Delete(a) with cleanup completed, the name b is present in the
path index with recorded length 3, yet Get(b) crashes on a missing child
instead of returning a byte slice of length 3. -/
theorem c10_cex :
    (storeARCopyDel.map fun r => (r.2.lookup "b").map Lookerup.length) = some (some 3) ∧
    (storeARCopyDel.map fun r => getGo r.2 "b") = some .crash ∧
    (storeARCopyDel.map fun r => getGo r.2 "b") ≠ some (.ok [97, 98, 0]) ∧
    (storeARCopyDel.map fun r => getGo r.2 "b") ≠ some (.ok [97, 98, 99]) := by
  decide

/-- Witness for C10 at the one-file store sN1 and the name n1. -/
theorem c10_amended_witness :
    sN1.lookup "n1" = some ⟨[], 3⟩ ∧ getGo sN1 "n1" = .ok [97, 98, 99] ∧
    ([97, 98, 99] : List Nat).length = 3 ∧
    (∃ tail, chainSuffix sN1.root [] = some tail ∧
      [97, 98, 99] = (sN1.root.value ++ tail).take 3 ++
        List.replicate (3 - (sN1.root.value ++ tail).length) 0) :=
  ⟨by rfl, by rfl,
   (c10_amended sN1 "n1" ⟨[], 3⟩ [97, 98, 99] (by rfl) (by rfl)).1,
   (c10_amended sN1 "n1" ⟨[], 3⟩ [97, 98, 99] (by rfl) (by rfl)).2⟩

end GFS
